import Mathlib

/-!
# Verification of the hpsdecode HPS decoder

A shallow embedding, in Lean 4, of the parts of the `hpsdecode` Python
package that the checked properties concern: the UV (texture coordinate)
codec and per-corner assignment (`texture.py`), the CE encryption layer
(`schemas/ce.py`: key derivation, package-lock hashing, the Adler-32
integrity gate), the post-parse count checks of `loader.py`, the spline
parsing call of `loader.py` against the `Spline` dataclass of `mesh.py`,
and the face-to-vertex color averaging of `texture.py`.

Bytes are modelled as `Nat` (values `< 256` where that matters), machine
floats as exact rationals `ℚ`, byte strings as `List Nat`, and fallible
code as `Option` / `Except`.
-/

set_option maxHeartbeats 1000000

namespace HPS


/-! ## Binary reader

Modelled from the spec: the repository's `hpsdecode/binary.py`
(`BinaryReader`) is not under `src/`; §4.1 of the spec describes it as a
little-endian primitive reader over a byte buffer that fails with an
EOF error when the requested bytes exceed the remaining input, with
`position` the count of consumed bytes. -/

/-- A reader over a byte buffer: the bytes and the current position. -/
structure BinaryReader where
  data : List Nat
  pos : Nat
deriving DecidableEq, Repr

/-- Read one unsigned byte, advancing the position; `none` at end of data. -/
def BinaryReader.read_uint8 (r : BinaryReader) : Option (Nat × BinaryReader) :=
  match r.data.get? r.pos with
  | some b => some (b, ⟨r.data, r.pos + 1⟩)
  | none => none

/-- Read a little-endian unsigned 32-bit integer, advancing the position;
`none` when fewer than four bytes remain. -/
def BinaryReader.read_uint32 (r : BinaryReader) : Option (Nat × BinaryReader) :=
  match r.data.get? r.pos, r.data.get? (r.pos + 1),
        r.data.get? (r.pos + 2), r.data.get? (r.pos + 3) with
  | some b0, some b1, some b2, some b3 =>
      some (b0 + b1 * 256 + b2 * 65536 + b3 * 16777216, ⟨r.data, r.pos + 4⟩)
  | _, _, _, _ => none

/-! ## UV codec (`texture.py`) -/

/-- Source `_OUTSIDE_RANGE_BIT`: bit 15 indicates the value is outside `[0, 1]`. -/
def OUTSIDE_RANGE_BIT : Nat := 0x8000

/-- Source `_COORD_MASK`: mask for the lower 15 bits holding the coordinate value. -/
def COORD_MASK : Nat := 0x7FFF

/-- Source `_SCALE_INSIDE`: scale factor for the `[0, 1]` range. -/
def SCALE_INSIDE : ℚ := 1 / 32767

/-- Source `_SCALE_OUTSIDE`: scale factor for the `[-256, 256]` range. -/
def SCALE_OUTSIDE : ℚ := 512 / 32767

/-- Source `_NO_UV_MARKER`: marker value indicating a missing texture coordinate. -/
def NO_UV_MARKER : Nat := 0xFFFFFFFF

/-- Source `_decompress_component`: decompress a single U or V component from its
16-bit representation. -/
def decompressComponent (bits : Nat) : ℚ :=
  let is_outside_range := bits &&& OUTSIDE_RANGE_BIT ≠ 0
  let value := bits &&& COORD_MASK
  if is_outside_range then
    (value : ℚ) * SCALE_OUTSIDE - 256
  else
    (value : ℚ) * SCALE_INSIDE

/-- Source `decompress_texture_coord`: split a 32-bit packed value into its low
16 bits (U) and high 16 bits (V) and decompress each component. -/
def decompress_texture_coord (compressed : Nat) : ℚ × ℚ :=
  (decompressComponent (compressed &&& 0xFFFF),
   decompressComponent ((compressed >>> 16) &&& 0xFFFF))

/-! ## Texture coordinate parsing (`parse_texture_coords`) -/

/-- The failure modes of `parse_texture_coords`: an unexpected end of data
at a vertex, or a flag byte that disagrees with the vertex's corner-degree. -/
inductive TexError where
  | eof (vertex : Nat)
  | mismatch (vertex flag expected : Nat)
deriving DecidableEq, Repr

/-- Source `faces.ravel()`: the `(M, 3)` face array flattened into its `3·M`
corners. -/
def faceCornersOf (faces : List (Nat × Nat × Nat)) : List Nat :=
  faces.flatMap (fun f => [f.1, f.2.1, f.2.2])

/-- Source `vertex_corners[v]`: the corner indices (positions in the flattened
corner list) that reference vertex `v`, in increasing order, exactly as
built by the enumeration loop of `parse_texture_coords`. -/
def vertexCorners (faceCorners : List Nat) (v : Nat) : List Nat :=
  (List.range faceCorners.length).filter (fun c => faceCorners.get? c = some v)

/-- Python's stable `sorted(corners, key=lambda c: c // 3)`: sort the
corner indices by the face they belong to. -/
def sortCornersByFace (corners : List Nat) : List Nat :=
  corners.insertionSort (fun a b => a / 3 ≤ b / 3)

/-- The inner loop of the multi-UV branch: read one `u32` record per corner
in `cs`, assigning the decompressed UV to that corner unless the record is
the no-UV marker. `none` signals an end-of-data failure. -/
def readCorners (reader : BinaryReader) (uvs : List (ℚ × ℚ)) :
    List Nat → Option (BinaryReader × List (ℚ × ℚ))
  | [] => some (reader, uvs)
  | c :: cs =>
    match reader.read_uint32 with
    | none => none
    | some (compressed, r2) =>
        if compressed ≠ NO_UV_MARKER then
          readCorners r2 (uvs.set c (decompress_texture_coord compressed)) cs
        else
          readCorners r2 uvs cs

/-- One iteration of the vertex loop of `parse_texture_coords`: read the
flag byte for `vertexIdx` and dispatch on its storage mode. -/
def processVertex (reader : BinaryReader) (uvs : List (ℚ × ℚ)) (corners : List Nat)
    (vertexIdx : Nat) : Except TexError (BinaryReader × List (ℚ × ℚ)) :=
  match reader.read_uint8 with
  | none => .error (.eof vertexIdx)
  | some (flag, r1) =>
    if flag = 1 then
      match r1.read_uint32 with
      | none => .error (.eof vertexIdx)
      | some (compressed, r2) =>
          if compressed ≠ NO_UV_MARKER then
            let uv := decompress_texture_coord compressed
            .ok (r2, corners.foldl (fun acc c => acc.set c uv) uvs)
          else
            .ok (r2, uvs)
    else
      if flag ≠ 0xFF ∧ flag ≠ corners.length then
        .error (.mismatch vertexIdx flag corners.length)
      else
        match readCorners r1 uvs (sortCornersByFace corners) with
        | none => .error (.eof vertexIdx)
        | some (r2, uvs2) => .ok (r2, uvs2)

/-- The vertex loop of `parse_texture_coords`, iterated over the given
vertex indices. -/
def parseLoop (faceCorners : List Nat) (reader : BinaryReader) (uvs : List (ℚ × ℚ)) :
    List Nat → Except TexError (BinaryReader × List (ℚ × ℚ))
  | [] => .ok (reader, uvs)
  | v :: vs =>
    match processVertex reader uvs (vertexCorners faceCorners v) v with
    | .error e => .error e
    | .ok (r2, uvs2) => parseLoop faceCorners r2 uvs2 vs

/-- Source `parse_texture_coords`: parse per-corner texture coordinates from a raw
byte stream, given the expected vertex count and the face array. The UV
array starts as `num_faces * 3` zero pairs and is filled vertex by vertex. -/
def parse_texture_coords (data : List Nat) (numVertices : Nat)
    (faces : List (Nat × Nat × Nat)) : Except TexError (List (ℚ × ℚ)) :=
  let faceCorners := faceCornersOf faces
  let uvs0 : List (ℚ × ℚ) := List.replicate (faces.length * 3) (0, 0)
  (parseLoop faceCorners ⟨data, 0⟩ uvs0 (List.range numVertices)).map Prod.snd

/-- The `i`-th 32-bit record available to a reader that consumes one
`u32` per step: the `u32` at byte offset `pos + 4·i`. -/
def recordAt (r : BinaryReader) (i : Nat) : Option Nat :=
  (BinaryReader.mk r.data (r.pos + 4 * i)).read_uint32.map Prod.fst

/-! ## CE schema layer (`schemas/ce.py`)

`EncryptedData` and `ParseContext` are referenced by `schemas/ce.py` but the
`schemas/base.py` under `src/` is an older revision without them, and the
Blowfish decryptor, key scrambler and CC parser (`encryption.py`,
`schemas/cc.py`) are not under `src/` at all; those parts are modelled from
the spec (§3, §4.2, §4.6, §7) — the concrete Blowfish/scrambler/CC
functions are abstracted as parameters, and per §7 the CC decoder's error
channel is distinct from the CE integrity failure. -/

/-- Modelled from the spec: `EncryptedBlob` (§3) — the ciphertext bytes, an
optional pre-encryption length, and whether the scrambled key applies. -/
structure EncryptedData where
  data : List Nat
  original_size : Option Nat
  use_scrambled_key : Bool

/-- A binary payload as fed to `_decrypt_data`: an `EncryptedData` blob or
plain bytes (`bytes | EncryptedData` in the Python signatures). -/
inductive BlobData where
  | encrypted (e : EncryptedData)
  | plain (b : List Nat)

/-- Modelled from the spec: `ParseContext` (§3) — the decoder input
(splines passthrough omitted; it does not participate in the CE layer). -/
structure ParseContext where
  properties : List (String × String)
  vertex_data : BlobData
  face_data : List Nat
  texture_coords_data : Option BlobData
  vertex_colors_data : Option BlobData
  texture_images : List BlobData
  vertex_count : Nat
  face_count : Nat
  default_vertex_color : Option Nat
  default_face_color : Option Nat
  check_value : Option Nat

/-- The CE layer's error channel: the integrity failure
(`HPSEncryptionError`, §7 `IntegrityCheckFailed(expected, actual)`), or an
error propagated from the wrapped CC decoder. -/
inductive HPSError (ε : Type) where
  | integrityCheckFailed (expected actual : Nat)
  | ccError (e : ε)

/-- Python's `zlib.adler32(data)`: the standard Adler-32 checksum — two mod-65521
accumulators over the bytes, packed as `(b <<< 16) ||| a`. -/
def adler32 (data : List Nat) : Nat :=
  let s := data.foldl
    (fun (ab : Nat × Nat) byte =>
      ((ab.1 + byte) % 65521, (ab.2 + (ab.1 + byte) % 65521) % 65521))
    (1, 0)
  s.2 * 65536 + s.1

/-- Source `int.from_bytes(n.to_bytes(4, "little"), "big")`: the 32-bit value with
its four bytes reversed. -/
def byteReverse32 (n : Nat) : Nat :=
  n % 256 * 16777216 + n / 256 % 256 * 65536 + n / 65536 % 256 * 256 + n / 16777216 % 256

/-- Source `CESchemaParser._decrypt_data`: plain bytes pass through; an encrypted
blob is decrypted with the scrambled or base key per `use_scrambled_key`.
The Blowfish decryptor (key → ciphertext → optional original size →
plaintext) and key scrambler are parameters, as `encryption.py` is not
under `src/`. -/
def decryptData (blowfishDecrypt : List Nat → List Nat → Option Nat → List Nat)
    (scramble_key : List Nat → List Nat) (data : BlobData) (key : List Nat) :
    List Nat :=
  match data with
  | .plain b => b
  | .encrypted e =>
      let decryption_key := if e.use_scrambled_key then scramble_key key else key
      blowfishDecrypt decryption_key e.data e.original_size

/-- The decrypted `ParseContext` that `CESchemaParser.parse` hands to the
CC decoder: every blob decrypted with the derived key, `check_value` not
carried over. -/
def decryptedContext (blowfishDecrypt : List Nat → List Nat → Option Nat → List Nat)
    (scramble_key : List Nat → List Nat) (ctx : ParseContext) (key : List Nat)
    (decrypted_vertex_data : List Nat) : ParseContext where
  properties := ctx.properties
  vertex_data := .plain decrypted_vertex_data
  face_data := ctx.face_data
  texture_coords_data := ctx.texture_coords_data.map
    (fun d => .plain (decryptData blowfishDecrypt scramble_key d key))
  vertex_colors_data := ctx.vertex_colors_data.map
    (fun d => .plain (decryptData blowfishDecrypt scramble_key d key))
  texture_images := ctx.texture_images.map
    (fun d => .plain (decryptData blowfishDecrypt scramble_key d key))
  vertex_count := ctx.vertex_count
  face_count := ctx.face_count
  default_vertex_color := ctx.default_vertex_color
  default_face_color := ctx.default_face_color
  check_value := none

/-- Source `CESchemaParser.parse`: derive the key, decrypt the vertex data, run
the Adler-32 integrity gate when `check_value` is set, then delegate to the
CC decoder (a parameter, as `schemas/cc.py` is not under `src/`) with the
decrypted context. `deriveBaseKey` stands for
`self._key_provider.get_key(properties)`; `deriveKeyFrom` is the key
derivation applied to its result (instantiated with `deriveKey` below). -/
def ceParse {ε ρ : Type}
    (blowfishDecrypt : List Nat → List Nat → Option Nat → List Nat)
    (scramble_key : List Nat → List Nat)
    (ccParse : ParseContext → Except ε ρ)
    (deriveBaseKey : List (String × String) → List Nat)
    (deriveKeyFrom : List Nat → List (String × String) → List Nat)
    (ctx : ParseContext) : Except (HPSError ε) ρ :=
  let key := deriveKeyFrom (deriveBaseKey ctx.properties) ctx.properties
  let decrypted_vertex_data := decryptData blowfishDecrypt scramble_key ctx.vertex_data key
  let proceed : Except (HPSError ε) ρ :=
    match ccParse (decryptedContext blowfishDecrypt scramble_key ctx key decrypted_vertex_data) with
    | .error e => .error (.ccError e)
    | .ok m => .ok m
  match ctx.check_value with
  | some check_value =>
      let adler := byteReverse32 (adler32 decrypted_vertex_data % 4294967296)
      if adler ≠ check_value then .error (.integrityCheckFailed check_value adler)
      else proceed
  | none => proceed

/-! ## Loader count checks (`loader.py`) -/

/-- The decoded mesh (`HPSMesh`), restricted to the fields the count checks
consult: vertex positions and face index triples. -/
structure HPSMesh where
  vertices : List (ℚ × ℚ × ℚ)
  faces : List (Nat × Nat × Nat)

/-- Source `HPSMesh.num_vertices`: the number of rows of `vertices`. -/
def HPSMesh.num_vertices (m : HPSMesh) : Nat := m.vertices.length

/-- Source `HPSMesh.num_faces`: the number of rows of `faces`. -/
def HPSMesh.num_faces (m : HPSMesh) : Nat := m.faces.length

/-- Source `ParseResult`: the schema parser's output (command traces, which the
count checks do not consult, omitted). -/
structure ParseResult where
  mesh : HPSMesh

/-- The errors `load_hps` can raise after the schema parser returns: the
two `HPSParseError` count mismatches, or an error propagated from the
parser itself. -/
inductive LoadError (ε : Type) where
  | countMismatch (kind : String) (expected actual : Nat)
  | parserError (e : ε)

/-- The tail of `load_hps` after `parser.parse(context)`: raise on a vertex
or face count mismatch against the envelope counts, otherwise return the
mesh. -/
def load_hps_finalize {ε : Type} (num_vertices num_faces : Nat)
    (parserResult : Except ε ParseResult) : Except (LoadError ε) HPSMesh :=
  match parserResult with
  | .error e => .error (.parserError e)
  | .ok result =>
      if result.mesh.num_vertices ≠ num_vertices then
        .error (.countMismatch "Vertex" num_vertices result.mesh.num_vertices)
      else if result.mesh.num_faces ≠ num_faces then
        .error (.countMismatch "Face" num_faces result.mesh.num_faces)
      else .ok result.mesh

/-! ## Spline parsing (`loader.py` / `mesh.py`) -/

/-- The fields of the `Spline` dataclass in `mesh.py`, in declaration
order. Note: there is no `color` field. -/
def splineDataclassFields : List String :=
  ["name", "control_points", "radius", "is_cyclic", "misc"]

/-- The keyword arguments `parse_spline` passes to the `Spline` constructor
in `loader.py` (lines 241–248). -/
def parseSplineKwargs : List String :=
  ["name", "control_points", "radius", "is_cyclic", "color", "misc"]

/-- Python dataclass call semantics: the generated `__init__` accepts
exactly the declared fields as keywords, so any keyword outside the field
list raises `TypeError: unexpected keyword argument`. This computes the
offending keywords of a call. -/
def dataclassUnexpectedKwargs (fields kwargs : List String) : List String :=
  kwargs.filter (fun k => ! fields.contains k)

/-! ## MD5 (Python `hashlib.md5`, called by `_compute_package_lock_hash`) -/

/-- Left-rotation of a 32-bit word by `s` places. -/
def rotl32 (x s : Nat) : Nat :=
  ((x <<< s) ||| (x >>> (32 - s))) % 4294967296

/-- The 64 MD5 round constants `floor(2^32 * abs(sin(i + 1)))`. -/
def md5K : List Nat :=
  [0xd76aa478, 0xe8c7b756, 0x242070db, 0xc1bdceee, 0xf57c0faf, 0x4787c62a, 0xa8304613, 0xfd469501,
   0x698098d8, 0x8b44f7af, 0xffff5bb1, 0x895cd7be, 0x6b901122, 0xfd987193, 0xa679438e, 0x49b40821,
   0xf61e2562, 0xc040b340, 0x265e5a51, 0xe9b6c7aa, 0xd62f105d, 0x02441453, 0xd8a1e681, 0xe7d3fbc8,
   0x21e1cde6, 0xc33707d6, 0xf4d50d87, 0x455a14ed, 0xa9e3e905, 0xfcefa3f8, 0x676f02d9, 0x8d2a4c8a,
   0xfffa3942, 0x8771f681, 0x6d9d6122, 0xfde5380c, 0xa4beea44, 0x4bdecfa9, 0xf6bb4b60, 0xbebfbc70,
   0x289b7ec6, 0xeaa127fa, 0xd4ef3085, 0x04881d05, 0xd9d4d039, 0xe6db99e5, 0x1fa27cf8, 0xc4ac5665,
   0xf4292244, 0x432aff97, 0xab9423a7, 0xfc93a039, 0x655b59c3, 0x8f0ccc92, 0xffeff47d, 0x85845dd1,
   0x6fa87e4f, 0xfe2ce6e0, 0xa3014314, 0x4e0811a1, 0xf7537e82, 0xbd3af235, 0x2ad7d2bb, 0xeb86d391]

/-- The 64 MD5 per-round left-rotation amounts. -/
def md5S : List Nat :=
  [7, 12, 17, 22, 7, 12, 17, 22, 7, 12, 17, 22, 7, 12, 17, 22,
   5, 9, 14, 20, 5, 9, 14, 20, 5, 9, 14, 20, 5, 9, 14, 20,
   4, 11, 16, 23, 4, 11, 16, 23, 4, 11, 16, 23, 4, 11, 16, 23,
   6, 10, 15, 21, 6, 10, 15, 21, 6, 10, 15, 21, 6, 10, 15, 21]

/-- Little-endian byte serialization of `n` over `k` bytes. -/
def toBytesLE (n k : Nat) : List Nat :=
  (List.range k).map (fun i => n / 256 ^ i % 256)

/-- MD5 padding: append `0x80`, zero bytes until the length is 56 mod 64,
then the 64-bit little-endian bit length. -/
def md5Pad (msg : List Nat) : List Nat :=
  let padZeros := (56 + 64 - (msg.length + 1) % 64) % 64
  msg ++ [0x80] ++ List.replicate padZeros 0 ++
    toBytesLE (msg.length * 8 % 18446744073709551616) 8

/-- Split a padded message into 64-byte blocks. -/
def md5Blocks (l : List Nat) : List (List Nat) :=
  if h : l = [] then [] else l.take 64 :: md5Blocks (l.drop 64)
termination_by l.length
decreasing_by
  simp only [List.length_drop]
  have : 0 < l.length := List.length_pos.mpr h
  omega

/-- The `j`-th little-endian 32-bit word of a 64-byte block. -/
def md5Word (block : List Nat) (j : Nat) : Nat :=
  block.getD (4 * j) 0 + block.getD (4 * j + 1) 0 * 256 +
    block.getD (4 * j + 2) 0 * 65536 + block.getD (4 * j + 3) 0 * 16777216

/-- The MD5 round mixing function F/G/H/I selected by the round index. -/
def md5F (r b c d : Nat) : Nat :=
  if r < 16 then (b &&& c) ||| ((b ^^^ 4294967295) &&& d)
  else if r < 32 then (d &&& b) ||| ((d ^^^ 4294967295) &&& c)
  else if r < 48 then b ^^^ c ^^^ d
  else c ^^^ (b ||| (d ^^^ 4294967295))

/-- The message-word index schedule of MD5. -/
def md5GIdx (r : Nat) : Nat :=
  if r < 16 then r
  else if r < 32 then (5 * r + 1) % 16
  else if r < 48 then (3 * r + 5) % 16
  else 7 * r % 16

/-- One MD5 round on the state `(a, b, c, d)`. -/
def md5Round (block : List Nat) (st : Nat × Nat × Nat × Nat) (r : Nat) :
    Nat × Nat × Nat × Nat :=
  let f := (md5F r st.2.1 st.2.2.1 st.2.2.2 + st.1 + md5K.getD r 0 +
    md5Word block (md5GIdx r)) % 4294967296
  (st.2.2.2, (st.2.1 + rotl32 f (md5S.getD r 0)) % 4294967296, st.2.1, st.2.2.1)

/-- Process one 64-byte block: 64 rounds, then add into the running state. -/
def md5Block (st : Nat × Nat × Nat × Nat) (block : List Nat) :
    Nat × Nat × Nat × Nat :=
  let e := (List.range 64).foldl (md5Round block) st
  ((st.1 + e.1) % 4294967296, (st.2.1 + e.2.1) % 4294967296,
   (st.2.2.1 + e.2.2.1) % 4294967296, (st.2.2.2 + e.2.2.2) % 4294967296)

/-- The 16-byte MD5 digest of a byte message. -/
def md5Digest (msg : List Nat) : List Nat :=
  let st := (md5Blocks (md5Pad msg)).foldl md5Block
    (1732584193, 4023233417, 2562383102, 271733878)
  toBytesLE st.1 4 ++ toBytesLE st.2.1 4 ++ toBytesLE st.2.2.1 4 ++ toBytesLE st.2.2.2 4

/-- Uppercase hexadecimal digit for a value below 16. -/
def hexUpperChar (n : Nat) : Char :=
  if n < 10 then Char.ofNat (48 + n) else Char.ofNat (55 + n)

/-- Python's `hashlib.md5(msg).hexdigest().upper()`: the digest rendered as
32 uppercase hexadecimal characters. -/
def md5HexUpper (msg : List Nat) : String :=
  String.mk ((md5Digest msg).flatMap
    (fun b => [hexUpperChar (b / 16), hexUpperChar (b % 16)]))

/-! ## Key derivation (`schemas/ce.py`) -/

/-- Python's `s.encode("utf-8")`. -/
def strUtf8 (s : String) : List Nat := s.toUTF8.toList.map (fun b => b.toNat)

/-- Python's `s.encode("iso-8859-1")`: each code point below 256 maps to
the byte of the same value (all strings this decoder encodes are
hexadecimal digests, so every code point is below 256); conversely
`bytes.decode("iso-8859-1")` maps each byte to the code point of the same
value, so decode-concatenate-encode is plain byte concatenation. -/
def strLatin1 (s : String) : List Nat := s.data.map (fun c => c.toNat)

/-- Python's `value.split(";")` for the single-character separator `;`:
maximal runs of non-separator characters, with an empty item for each
leading, trailing or doubled separator, and a single empty item for the
empty string. (Lean's own `String.splitOn` matches this semantics but is
defined by well-founded recursion; this structural version computes in the
kernel.) -/
def splitSemisAux : List Char → List (List Char)
  | [] => [[]]
  | c :: rest =>
    match splitSemisAux rest with
    | [] => [[]]
    | cur :: others => if c = ';' then [] :: cur :: others else (c :: cur) :: others

/-- Python's `value.split(";")` on strings. -/
def pySplitSemi (s : String) : List String := (splitSemisAux s.data).map String.mk

/-- Lexicographic comparison of character lists by code point, as Python
compares strings. -/
def charListLe : List Char → List Char → Bool
  | [], _ => true
  | _ :: _, [] => false
  | a :: as, b :: bs =>
    if a.toNat < b.toNat then true
    else if b.toNat < a.toNat then false
    else charListLe as bs

/-- Python's `<=` on strings: lexicographic by code point. -/
def pyStrLe (a b : String) : Prop := charListLe a.data b.data = true

instance : DecidableRel pyStrLe := fun a b => by unfold pyStrLe; infer_instance

/-- The `HPS_ATTR_ENCRYPTION_KEY_ID` property name. -/
def HPS_ATTR_ENCRYPTION_KEY_ID : String := "EKID"

/-- The `HPS_ATTR_PACKAGE_LOCK_LIST` property name. -/
def HPS_ATTR_PACKAGE_LOCK_LIST : String := "PackageLockList"

/-- The `ENCRYPTION_KEY_ID_3SHAPE_INTERNAL` constant. -/
def ENCRYPTION_KEY_ID_3SHAPE_INTERNAL : String := "1"

/-- Source `CESchemaParser._compute_package_lock_hash`: fetch `PackageLockList`;
a missing or falsy (empty) value yields no hash; split on `;`, drop empty
items; an empty item list yields no hash; otherwise deduplicate, sort,
re-join with `;`, append a trailing `;`, and return the uppercase-hex MD5
of the UTF-8 bytes. Python's `sorted(set(items))` is the sorted list of
the distinct items, modelled as sorting the deduplicated list. -/
def computePackageLockHash (properties : List (String × String)) : Option String :=
  match properties.lookup HPS_ATTR_PACKAGE_LOCK_LIST with
  | none => none
  | some value =>
    if value = "" then none
    else
      let items := (pySplitSemi value).filter (fun s => s ≠ "")
      if items = [] then none
      else
        let canonical := String.intercalate ";"
          (List.insertionSort pyStrLe items.dedup) ++ ";"
        some (md5HexUpper (strUtf8 canonical))

/-- Source `CESchemaParser._derive_key`, applied to the result of
`self._key_provider.get_key(properties)`: with a falsy (absent or empty)
`EKID`, the package hash bytes when a truthy hash exists, else the base
key; with `EKID = "1"` and a truthy hash, the base key concatenated with
the hash bytes; otherwise the base key. -/
def deriveKey (base_key : List Nat) (properties : List (String × String)) : List Nat :=
  let encryption_key_id := properties.lookup HPS_ATTR_ENCRYPTION_KEY_ID
  let package_hash := computePackageLockHash properties
  if encryption_key_id = none ∨ encryption_key_id = some "" then
    match package_hash with
    | some h => if h ≠ "" then strLatin1 h else base_key
    | none => base_key
  else
    match package_hash with
    | some h =>
        if encryption_key_id = some ENCRYPTION_KEY_ID_3SHAPE_INTERNAL ∧ h ≠ "" then
          base_key ++ strLatin1 h
        else base_key
    | none => base_key

/-! ## Face-to-vertex color averaging (`face_colors_to_vertex_colors`) -/

/-- The mesh slice consulted by `face_colors_to_vertex_colors`: the vertex
count, the face index triples, and the per-face colors (uint8 values). -/
structure ColoredMesh where
  num_vertices : Nat
  faces : List (Nat × Nat × Nat)
  face_colors : List (Nat × Nat × Nat)

/-- A face color cast to float (`face_color.astype(np.float32)`), modelled
exactly over the rationals. -/
def colorToQ (c : Nat × Nat × Nat) : ℚ × ℚ × ℚ :=
  ((c.1 : ℚ), (c.2.1 : ℚ), (c.2.2 : ℚ))

/-- One iteration of the inner loop of `face_colors_to_vertex_colors`: add
the face color into the vertex's accumulator row and bump its count. -/
def accumVertex (st : (Nat → ℚ × ℚ × ℚ) × (Nat → Nat)) (v : Nat) (c : ℚ × ℚ × ℚ) :
    (Nat → ℚ × ℚ × ℚ) × (Nat → Nat) :=
  (Function.update st.1 v (st.1 v + c), Function.update st.2 v (st.2 v + 1))

/-- The body of the face loop: accumulate the face's color at each of its
three corners, in order. -/
def accumFace (st : (Nat → ℚ × ℚ × ℚ) × (Nat → Nat)) (face : Nat × Nat × Nat)
    (color : Nat × Nat × Nat) : (Nat → ℚ × ℚ × ℚ) × (Nat → Nat) :=
  accumVertex (accumVertex (accumVertex st face.1 (colorToQ color))
    face.2.1 (colorToQ color)) face.2.2 (colorToQ color)

/-- Componentwise division of an accumulated color row by a count
(the masked `vertex_colors[mask] /= vertex_counts[mask]`). -/
def divColor (c : ℚ × ℚ × ℚ) (n : Nat) : ℚ × ℚ × ℚ :=
  (c.1 / n, c.2.1 / n, c.2.2 / n)

/-- numpy's `astype(np.uint8)` on a nonnegative float triple: truncate
toward zero and wrap modulo 256. -/
def truncColor (c : ℚ × ℚ × ℚ) : Nat × Nat × Nat :=
  (Nat.floor c.1 % 256, Nat.floor c.2.1 % 256, Nat.floor c.2.2 % 256)

/-- Source `face_colors_to_vertex_colors`: accumulate per-corner color sums and
counts over the faces, divide the rows with a positive count by that count,
and cast the whole array to uint8. -/
def face_colors_to_vertex_colors (mesh : ColoredMesh) : List (Nat × Nat × Nat) :=
  let st := (mesh.faces.zip mesh.face_colors).foldl
    (fun st fc => accumFace st fc.1 fc.2) (fun _ => (0, 0, 0), fun _ => 0)
  (List.range mesh.num_vertices).map (fun v =>
    truncColor (if st.2 v > 0 then divColor (st.1 v) (st.2 v) else st.1 v))

/-- The number of corners of one face that name vertex `v`. -/
def countIn (face : Nat × Nat × Nat) (v : Nat) : Nat :=
  (if face.1 = v then 1 else 0) + (if face.2.1 = v then 1 else 0) +
    (if face.2.2 = v then 1 else 0)

/-- Scale a color triple by a rational. -/
def scaleColor (q : ℚ) (c : ℚ × ℚ × ℚ) : ℚ × ℚ × ℚ :=
  (q * c.1, q * c.2.1, q * c.2.2)

/-- The color mass accumulated at vertex `v` over a list of
(face, color) pairs: each face's color counted once per corner naming `v`. -/
def cornerColorSum (L : List ((Nat × Nat × Nat) × (Nat × Nat × Nat))) (v : Nat) :
    ℚ × ℚ × ℚ :=
  (L.map (fun fc => scaleColor (countIn fc.1 v) (colorToQ fc.2))).sum

/-- The number of corners naming `v` over a list of (face, color) pairs. -/
def cornerCountSum (L : List ((Nat × Nat × Nat) × (Nat × Nat × Nat))) (v : Nat) : Nat :=
  (L.map (fun fc => countIn fc.1 v)).sum

/-! ## Properties, claims and witnesses -/

theorem decompressComponent_eq_ite (bits : Nat) :
    decompressComponent bits =
      if bits &&& OUTSIDE_RANGE_BIT ≠ 0 then
        ((bits &&& COORD_MASK : Nat) : ℚ) * SCALE_OUTSIDE - 256
      else ((bits &&& COORD_MASK : Nat) : ℚ) * SCALE_INSIDE := rfl

theorem decompressComponent_inside {bits : Nat} (hb : bits < 65536)
    (h15 : bits &&& OUTSIDE_RANGE_BIT = 0) :
    decompressComponent bits = (bits : ℚ) * (1 / 32767) ∧
      0 ≤ decompressComponent bits ∧ decompressComponent bits ≤ 1 := by
  have hbit : bits.testBit 15 = false := by
    have h2 : bits &&& 2 ^ 15 = (bits.testBit 15).toNat * 2 ^ 15 := Nat.and_two_pow bits 15
    have h0 : bits &&& 2 ^ 15 = 0 := h15
    rw [h0] at h2
    cases h : bits.testBit 15 <;> simp [h] at h2 ⊢
  have hdiv : bits / 2 ^ 15 % 2 ≠ 1 := by
    have := Nat.testBit_to_div_mod (x := bits) (i := 15)
    rw [hbit] at this
    simpa using this.symm
  have hsmall : bits < 32768 := by omega
  have hmask : bits &&& COORD_MASK = bits := by
    have h1 : bits &&& COORD_MASK = bits % 32768 := by
      simpa [COORD_MASK] using Nat.and_pow_two_sub_one_eq_mod bits 15
    rw [h1]
    omega
  have heq : decompressComponent bits = (bits : ℚ) * SCALE_INSIDE := by
    rw [decompressComponent_eq_ite, if_neg (by simp [h15]), hmask]
  have hle : (bits : ℚ) ≤ 32767 := by exact_mod_cast Nat.le_of_lt_succ hsmall
  refine ⟨by rw [heq]; norm_num [SCALE_INSIDE], ?_, ?_⟩
  · rw [heq]
    apply mul_nonneg (by positivity)
    norm_num [SCALE_INSIDE]
  · rw [heq]
    calc (bits : ℚ) * SCALE_INSIDE ≤ 32767 * SCALE_INSIDE := by
          apply mul_le_mul_of_nonneg_right hle
          norm_num [SCALE_INSIDE]
      _ = 1 := by norm_num [SCALE_INSIDE]

theorem decompressComponent_outside {bits : Nat}
    (h15 : bits &&& OUTSIDE_RANGE_BIT ≠ 0) :
    decompressComponent bits = ((bits &&& 0x7FFF : Nat) : ℚ) * (512 / 32767) - 256 ∧
      -256 ≤ decompressComponent bits ∧ decompressComponent bits ≤ 256 := by
  have hlt : bits &&& COORD_MASK ≤ 32767 := by
    have : bits &&& COORD_MASK ≤ COORD_MASK := Nat.and_le_right
    simpa [COORD_MASK] using this
  have heq : decompressComponent bits = ((bits &&& COORD_MASK : Nat) : ℚ) * SCALE_OUTSIDE - 256 := by
    rw [decompressComponent_eq_ite, if_pos h15]
  have hc0 : (0 : ℚ) ≤ ((bits &&& COORD_MASK : Nat) : ℚ) * SCALE_OUTSIDE := by
    apply mul_nonneg (by positivity)
    norm_num [SCALE_OUTSIDE]
  have hc : ((bits &&& COORD_MASK : Nat) : ℚ) ≤ 32767 := by exact_mod_cast hlt
  have hub : ((bits &&& COORD_MASK : Nat) : ℚ) * SCALE_OUTSIDE ≤ 512 := by
    calc ((bits &&& COORD_MASK : Nat) : ℚ) * SCALE_OUTSIDE ≤ 32767 * SCALE_OUTSIDE := by
          apply mul_le_mul_of_nonneg_right hc
          norm_num [SCALE_OUTSIDE]
      _ = 512 := by norm_num [SCALE_OUTSIDE]
  refine ⟨by rw [heq]; norm_num [COORD_MASK, SCALE_OUTSIDE], ?_, ?_⟩
  · rw [heq]; linarith
  · rw [heq]; linarith

/-- Claim C5. For every packed 32-bit UV, the low 16 bits decode to U and the
high 16 bits to V; a 16-bit component with bit 15 clear decodes to
`raw * (1/32767)`, which lies in `[0, 1]`, and a component with bit 15 set
decodes to `(raw &&& 0x7FFF) * (512/32767) - 256`, which lies in
`[-256, 256]`. -/
theorem uv_component_decoding (compressed : Nat) :
    decompress_texture_coord compressed =
      (decompressComponent (compressed &&& 0xFFFF),
       decompressComponent ((compressed >>> 16) &&& 0xFFFF)) ∧
    ∀ bits : Nat, bits < 65536 →
      (bits &&& 0x8000 = 0 →
        decompressComponent bits = (bits : ℚ) * (1 / 32767) ∧
          0 ≤ decompressComponent bits ∧ decompressComponent bits ≤ 1) ∧
      (bits &&& 0x8000 ≠ 0 →
        decompressComponent bits = ((bits &&& 0x7FFF : Nat) : ℚ) * (512 / 32767) - 256 ∧
          -256 ≤ decompressComponent bits ∧ decompressComponent bits ≤ 256) := by
  refine ⟨rfl, fun bits hb => ⟨fun h15 => ?_, fun h15 => ?_⟩⟩
  · exact decompressComponent_inside hb h15
  · exact decompressComponent_outside h15

/-- Witness for C5 at the concrete packed value `0x80003FFF`
(U raw `0x3FFF` inside-range, V raw `0x8000` outside-range). -/
theorem uv_component_decoding_witness :
    decompress_texture_coord 0x80003FFF =
      (decompressComponent 0x3FFF, decompressComponent 0x8000) ∧
      decompressComponent 0x3FFF = (0x3FFF : ℚ) * (1 / 32767) ∧
      decompressComponent 0x8000 = ((0x8000 &&& 0x7FFF : Nat) : ℚ) * (512 / 32767) - 256 := by
  obtain ⟨h1, h2⟩ := uv_component_decoding 0x80003FFF
  refine ⟨by simpa using h1, ?_, ?_⟩
  · exact ((h2 0x3FFF (by decide)).1 (by decide)).1
  · exact ((h2 0x8000 (by decide)).2 (by decide)).1

theorem foldl_set_length (cs : List Nat) (uv : ℚ × ℚ) (acc : List (ℚ × ℚ)) :
    (cs.foldl (fun acc c => acc.set c uv) acc).length = acc.length := by
  induction cs generalizing acc with
  | nil => rfl
  | cons c cs ih => simpa using ih (acc.set c uv)

theorem readCorners_length {cs : List Nat} {reader : BinaryReader}
    {uvs : List (ℚ × ℚ)} {r2 : BinaryReader} {uvs2 : List (ℚ × ℚ)}
    (h : readCorners reader uvs cs = some (r2, uvs2)) :
    uvs2.length = uvs.length := by
  induction cs generalizing reader uvs with
  | nil =>
    simp only [readCorners, Option.some.injEq, Prod.mk.injEq] at h
    rw [← h.2]
  | cons c cs ih =>
    simp only [readCorners] at h
    split at h
    · exact absurd h (by simp)
    · split at h
      · simpa using ih h
      · exact ih h

theorem processVertex_length {reader : BinaryReader} {uvs : List (ℚ × ℚ)}
    {corners : List Nat} {v : Nat} {r2 : BinaryReader} {uvs2 : List (ℚ × ℚ)}
    (h : processVertex reader uvs corners v = .ok (r2, uvs2)) :
    uvs2.length = uvs.length := by
  simp only [processVertex] at h
  split at h
  · exact absurd h (by simp)
  · split at h
    · split at h
      · exact absurd h (by simp)
      · split at h
        · simp only [Except.ok.injEq, Prod.mk.injEq] at h
          rw [← h.2]
          exact foldl_set_length corners _ uvs
        · simp only [Except.ok.injEq, Prod.mk.injEq] at h
          rw [← h.2]
    · split at h
      · exact absurd h (by simp)
      · split at h
        · exact absurd h (by simp)
        · rename_i hrc
          simp only [Except.ok.injEq, Prod.mk.injEq] at h
          rw [← h.2]
          exact readCorners_length hrc

theorem parseLoop_length {vs : List Nat} {faceCorners : List Nat}
    {reader : BinaryReader} {uvs : List (ℚ × ℚ)} {r2 : BinaryReader}
    {uvs2 : List (ℚ × ℚ)}
    (h : parseLoop faceCorners reader uvs vs = .ok (r2, uvs2)) :
    uvs2.length = uvs.length := by
  induction vs generalizing reader uvs with
  | nil =>
    simp only [parseLoop, Except.ok.injEq, Prod.mk.injEq] at h
    rw [← h.2]
  | cons v vs ih =>
    simp only [parseLoop] at h
    split at h
    · exact absurd h (by simp)
    · rename_i p hp
      have h1 := ih h
      have h2 := processVertex_length hp
      omega

/-- Claim C8. Every successful `parse_texture_coords` call over an `(M, 3)`
face array returns a UV array with exactly `3·M` rows — one UV pair per
face corner — regardless of the flag modes used in the stream. -/
theorem uv_output_shape {data : List Nat} {numVertices : Nat}
    {faces : List (Nat × Nat × Nat)} {result : List (ℚ × ℚ)}
    (_hvalid : ∀ v ∈ faceCornersOf faces, v < numVertices)
    (h : parse_texture_coords data numVertices faces = .ok result) :
    result.length = 3 * faces.length := by
  simp only [parse_texture_coords] at h
  cases hp : parseLoop (faceCornersOf faces) ⟨data, 0⟩
      (List.replicate (faces.length * 3) (0, 0)) (List.range numVertices) with
  | error e => rw [hp] at h; exact absurd h (by simp [Except.map])
  | ok p =>
    rw [hp] at h
    simp only [Except.map, Except.ok.injEq] at h
    obtain ⟨rr, uu⟩ := p
    have hl := parseLoop_length hp
    change uu = result at h
    rw [h] at hl
    simpa [Nat.mul_comm] using hl

/-- Witness for C8: a single triangle with three flag-1 sentinel vertex
records parses successfully to a three-row UV array. -/
theorem uv_output_shape_witness :
    ∃ result : List (ℚ × ℚ),
      parse_texture_coords
        [1, 255, 255, 255, 255, 1, 255, 255, 255, 255, 1, 255, 255, 255, 255]
        3 [(0, 1, 2)] = .ok result ∧ result.length = 3 * 1 := by
  have hp : parse_texture_coords
      [1, 255, 255, 255, 255, 1, 255, 255, 255, 255, 1, 255, 255, 255, 255]
      3 [(0, 1, 2)] = .ok [(0, 0), (0, 0), (0, 0)] := rfl
  exact ⟨[(0, 0), (0, 0), (0, 0)], hp, uv_output_shape (by decide) hp⟩

theorem read_uint8_some {r : BinaryReader} {b : Nat} {r' : BinaryReader}
    (h : r.read_uint8 = some (b, r')) :
    r'.data = r.data ∧ r'.pos = r.pos + 1 ∧ r.data.get? r.pos = some b := by
  simp only [BinaryReader.read_uint8] at h
  split at h
  · rename_i hb
    simp only [Option.some.injEq, Prod.mk.injEq] at h
    obtain ⟨h1, h2⟩ := h
    subst h1
    rw [← h2]
    exact ⟨rfl, rfl, hb⟩
  · exact absurd h (by simp)

theorem read_uint32_some {r : BinaryReader} {w : Nat} {r' : BinaryReader}
    (h : r.read_uint32 = some (w, r')) :
    r'.data = r.data ∧ r'.pos = r.pos + 4 := by
  simp only [BinaryReader.read_uint32] at h
  split at h
  · simp only [Option.some.injEq, Prod.mk.injEq] at h
    rw [← h.2]
    exact ⟨rfl, rfl⟩
  · exact absurd h (by simp)

theorem readCorners_reader {cs : List Nat} {reader : BinaryReader}
    {uvs : List (ℚ × ℚ)} {r2 : BinaryReader} {uvs2 : List (ℚ × ℚ)}
    (h : readCorners reader uvs cs = some (r2, uvs2)) :
    r2.data = reader.data ∧ r2.pos = reader.pos + 4 * cs.length := by
  induction cs generalizing reader uvs with
  | nil =>
    simp only [readCorners, Option.some.injEq, Prod.mk.injEq] at h
    rw [← h.1]
    exact ⟨rfl, by simp⟩
  | cons c cs ih =>
    simp only [readCorners] at h
    split at h
    · exact absurd h (by simp)
    · rename_i w rr heq
      split at h
      · obtain ⟨hd, hp⟩ := ih h
        obtain ⟨hd2, hp2⟩ := read_uint32_some heq
        exact ⟨by rw [hd, hd2], by simp only [List.length_cons]; omega⟩
      · obtain ⟨hd, hp⟩ := ih h
        obtain ⟨hd2, hp2⟩ := read_uint32_some heq
        exact ⟨by rw [hd, hd2], by simp only [List.length_cons]; omega⟩

theorem processVertex_mismatch_iff {reader : BinaryReader} {uvs : List (ℚ × ℚ)}
    {corners : List Nat} {vertexIdx v f e : Nat} :
    processVertex reader uvs corners vertexIdx = .error (.mismatch v f e) ↔
      v = vertexIdx ∧ e = corners.length ∧
        ∃ r1, reader.read_uint8 = some (f, r1) ∧
          f ≠ 1 ∧ f ≠ 0xFF ∧ f ≠ corners.length := by
  simp only [processVertex]
  split
  · rename_i heq
    simp [heq]
  · rename_i flag r1 heq
    split
    · rename_i hflag
      subst hflag
      constructor
      · intro h
        split at h
        · exact absurd h (by simp)
        · split at h <;> exact absurd h (by simp)
      · rintro ⟨-, -, r1', hr, hf1, -, -⟩
        rw [heq] at hr
        simp only [Option.some.injEq, Prod.mk.injEq] at hr
        exact absurd hr.1.symm hf1
    · rename_i hflag
      split
      · rename_i hcond
        constructor
        · intro h
          simp only [Except.error.injEq, TexError.mismatch.injEq] at h
          obtain ⟨h1, h2, h3⟩ := h
          subst h1; subst h2; subst h3
          exact ⟨rfl, rfl, r1, heq, hflag, hcond.1, hcond.2⟩
        · rintro ⟨h1, h2, r1', hr, -, -, hfl⟩
          rw [heq] at hr
          simp only [Option.some.injEq, Prod.mk.injEq] at hr
          simp [h1, h2, hr.1]
      · rename_i hcond
        constructor
        · intro h
          split at h <;> exact absurd h (by simp)
        · rintro ⟨-, -, r1', hr, -, hf255, hfl⟩
          rw [heq] at hr
          simp only [Option.some.injEq, Prod.mk.injEq] at hr
          rw [← hr.1] at hf255 hfl
          exact absurd ⟨hf255, hfl⟩ hcond

theorem parseLoop_append (faceCorners : List Nat) (reader : BinaryReader)
    (uvs : List (ℚ × ℚ)) (l1 l2 : List Nat) :
    parseLoop faceCorners reader uvs (l1 ++ l2) =
      match parseLoop faceCorners reader uvs l1 with
      | .error e => .error e
      | .ok (r2, uvs2) => parseLoop faceCorners r2 uvs2 l2 := by
  induction l1 generalizing reader uvs with
  | nil => simp [parseLoop]
  | cons v vs ih =>
    simp only [List.cons_append, parseLoop]
    split
    · rfl
    · exact ih _ _

theorem parseLoop_mismatch_iff (fc data0 : List Nat) (uvs0 : List (ℚ × ℚ))
    (n v f e : Nat) :
    parseLoop fc ⟨data0, 0⟩ uvs0 (List.range n) = .error (.mismatch v f e) ↔
      v < n ∧ e = (vertexCorners fc v).length ∧
        ∃ r uvs, parseLoop fc ⟨data0, 0⟩ uvs0 (List.range v) = .ok (r, uvs) ∧
          ∃ r1, r.read_uint8 = some (f, r1) ∧
            f ≠ 1 ∧ f ≠ 0xFF ∧ f ≠ (vertexCorners fc v).length := by
  induction n with
  | zero => simp [parseLoop]
  | succ n ih =>
    rw [List.range_succ, parseLoop_append]
    cases hJ : parseLoop fc ⟨data0, 0⟩ uvs0 (List.range n) with
    | error e' =>
      constructor
      · intro h
        simp only [Except.error.injEq] at h
        rw [h] at hJ
        obtain ⟨h1, h2, h3⟩ := ih.mp hJ
        exact ⟨Nat.lt_succ_of_lt h1, h2, h3⟩
      · rintro ⟨h1, h2, r, uvs, hreach, hrest⟩
        rcases Nat.lt_succ_iff_lt_or_eq.mp h1 with hv | hv
        · have := ih.mpr ⟨hv, h2, r, uvs, hreach, hrest⟩
          rw [hJ] at this
          simp only [Except.error.injEq] at this
          simp [this]
        · subst hv
          rw [hreach] at hJ
          exact absurd hJ (by simp)
    | ok p =>
      obtain ⟨r, uvs⟩ := p
      have hstep : (parseLoop fc r uvs [n] = .error (.mismatch v f e)) ↔
          processVertex r uvs (vertexCorners fc n) n = .error (.mismatch v f e) := by
        simp only [parseLoop]
        split
        · rename_i e2 hpv
          rw [hpv]
        · rename_i rr2 uu2 hpv
          rw [hpv]
      rw [hstep, processVertex_mismatch_iff]
      constructor
      · rintro ⟨h1, h2, r1, hr, hf1, hf255, hfl⟩
        subst v
        exact ⟨Nat.lt_succ_self n, h2, r, uvs, hJ, r1, hr, hf1, hf255, h2 ▸ hfl⟩
      · rintro ⟨h1, h2, r', uvs', hreach, r1, hr, hf1, hf255, hfl⟩
        rcases Nat.lt_succ_iff_lt_or_eq.mp h1 with hv | hv
        · have := ih.mpr ⟨hv, h2, r', uvs', hreach, r1, hr, hf1, hf255, hfl⟩
          rw [hJ] at this
          exact absurd this (by simp)
        · subst hv
          rw [hJ] at hreach
          simp only [Except.ok.injEq, Prod.mk.injEq] at hreach
          obtain ⟨hre, hue⟩ := hreach
          subst hre; subst hue
          exact ⟨rfl, h2, r1, hr, hf1, hf255, h2 ▸ hfl⟩

theorem processVertex_matching_flag {reader : BinaryReader} {uvs : List (ℚ × ℚ)}
    {corners : List Nat} {vertexIdx f : Nat} {r1 : BinaryReader}
    (hr : reader.read_uint8 = some (f, r1)) (hf1 : f ≠ 1) (_hf255 : f ≠ 0xFF)
    (hfl : f = corners.length) :
    (∀ v' fl ex, processVertex reader uvs corners vertexIdx ≠ .error (.mismatch v' fl ex)) ∧
    (∀ r2 uvs2, processVertex reader uvs corners vertexIdx = .ok (r2, uvs2) →
      r2.data = reader.data ∧ r2.pos = reader.pos + 1 + 4 * corners.length) := by
  constructor
  · intro v' fl ex h
    obtain ⟨-, -, r1', hr', -, -, hne⟩ := processVertex_mismatch_iff.mp h
    rw [hr] at hr'
    simp only [Option.some.injEq, Prod.mk.injEq] at hr'
    rw [← hr'.1] at hne
    exact hne hfl
  · intro r2 uvs2 h
    simp only [processVertex, hr] at h
    rw [if_neg hf1, if_neg (by push_neg; intro _; exact hfl)] at h
    split at h
    · exact absurd h (by simp)
    · rename_i rr uu hrc
      simp only [Except.ok.injEq, Prod.mk.injEq] at h
      obtain ⟨h1, -⟩ := h
      subst h1
      obtain ⟨hd, hp⟩ := readCorners_reader hrc
      obtain ⟨hd1, hp1, -⟩ := read_uint8_some hr
      have hsl : (sortCornersByFace corners).length = corners.length :=
        List.length_insertionSort _ _
      refine ⟨by rw [hd, hd1], ?_⟩
      rw [hp, hsl]
      omega

/-- Claim C4. `parse_texture_coords` fails with the UV-count-mismatch error
exactly when the vertex loop reaches a vertex whose flag byte is neither
`1` nor `0xFF` and differs from that vertex's corner-degree; a flag equal
to the corner-degree is accepted (never a mismatch error) and one 32-bit
UV record is then consumed per referencing corner. -/
theorem uv_count_mismatch_characterization :
    (∀ (data : List Nat) (numVertices : Nat) (faces : List (Nat × Nat × Nat))
        (v f e : Nat),
      (∀ w ∈ faceCornersOf faces, w < numVertices) →
      (parse_texture_coords data numVertices faces = .error (.mismatch v f e) ↔
        v < numVertices ∧ e = (vertexCorners (faceCornersOf faces) v).length ∧
          ∃ r uvs, parseLoop (faceCornersOf faces) ⟨data, 0⟩
              (List.replicate (faces.length * 3) (0, 0)) (List.range v) = .ok (r, uvs) ∧
            ∃ r1, r.read_uint8 = some (f, r1) ∧
              f ≠ 1 ∧ f ≠ 0xFF ∧ f ≠ (vertexCorners (faceCornersOf faces) v).length)) ∧
    (∀ (reader : BinaryReader) (uvs : List (ℚ × ℚ)) (corners : List Nat)
        (vertexIdx f : Nat) (r1 : BinaryReader),
      reader.read_uint8 = some (f, r1) → f ≠ 1 → f ≠ 0xFF → f = corners.length →
      (∀ v' fl ex, processVertex reader uvs corners vertexIdx ≠ .error (.mismatch v' fl ex)) ∧
      (∀ r2 uvs2, processVertex reader uvs corners vertexIdx = .ok (r2, uvs2) →
        r2.data = reader.data ∧ r2.pos = reader.pos + 1 + 4 * corners.length)) := by
  constructor
  · intro data numVertices faces v f e _hvalid
    have hmap : ∀ (x : Except TexError (BinaryReader × List (ℚ × ℚ))) (err : TexError),
        x.map Prod.snd = .error err ↔ x = .error err := by
      intro x err
      cases x <;> simp [Except.map]
    simp only [parse_texture_coords]
    rw [hmap]
    exact parseLoop_mismatch_iff _ _ _ _ _ _ _
  · intro reader uvs corners vertexIdx f r1 hr hf1 hf255 hfl
    exact processVertex_matching_flag hr hf1 hf255 hfl

/-- Witness for C4: the two-triangle quad with a first vertex record whose
flag byte `5` differs from vertex 0's corner-degree `2` fails with the
mismatch error `(vertex 0, flag 5, expected 2)`. -/
theorem uv_count_mismatch_witness :
    parse_texture_coords [5, 0, 16, 0, 16] 4 [(0, 1, 2), (0, 2, 3)] =
      .error (.mismatch 0 5 2) := by
  apply (uv_count_mismatch_characterization.1 [5, 0, 16, 0, 16] 4
    [(0, 1, 2), (0, 2, 3)] 0 5 2 (by decide)).mpr
  refine ⟨by decide, by decide, ⟨[5, 0, 16, 0, 16], 0⟩,
    List.replicate (2 * 3) (0, 0), rfl, ⟨[5, 0, 16, 0, 16], 1⟩, rfl, ?_, ?_, ?_⟩
  · decide
  · decide
  · decide

theorem recordAt_zero (r : BinaryReader) : recordAt r 0 = r.read_uint32.map Prod.fst := by
  simp [recordAt]

theorem recordAt_succ {r rr : BinaryReader} {w : Nat}
    (h : r.read_uint32 = some (w, rr)) (i : Nat) :
    recordAt r (i + 1) = recordAt rr i := by
  obtain ⟨hd, hp⟩ := read_uint32_some h
  simp only [recordAt, hd, hp]
  have : r.pos + 4 * (i + 1) = r.pos + 4 + 4 * i := by ring
  rw [this]

theorem readCorners_untouched {cs : List Nat} {reader : BinaryReader}
    {uvs : List (ℚ × ℚ)} {r2 : BinaryReader} {uvs2 : List (ℚ × ℚ)} {j : Nat}
    (hj : j ∉ cs) (h : readCorners reader uvs cs = some (r2, uvs2)) :
    uvs2.get? j = uvs.get? j := by
  induction cs generalizing reader uvs with
  | nil =>
    simp only [readCorners, Option.some.injEq, Prod.mk.injEq] at h
    rw [← h.2]
  | cons c cs ih =>
    have hjc : j ≠ c := fun hh => hj (hh ▸ List.mem_cons_self c cs)
    have hjcs : j ∉ cs := fun hh => hj (List.mem_cons_of_mem c hh)
    simp only [readCorners] at h
    split at h
    · exact absurd h (by simp)
    · rename_i w rr heq
      split at h
      · rw [ih hjcs h]
        exact List.get?_set_ne _ _ (Ne.symm hjc)
      · exact ih hjcs h

theorem readCorners_sentinel {cs : List Nat} {reader : BinaryReader}
    {uvs : List (ℚ × ℚ)} {r2 : BinaryReader} {uvs2 : List (ℚ × ℚ)}
    (hnd : cs.Nodup) (h : readCorners reader uvs cs = some (r2, uvs2))
    (i : Nat) (hi : i < cs.length)
    (hrec : recordAt reader i = some NO_UV_MARKER) :
    uvs2.get? (cs.get ⟨i, hi⟩) = uvs.get? (cs.get ⟨i, hi⟩) := by
  induction cs generalizing reader uvs i with
  | nil => exact absurd hi (by simp)
  | cons c cs ih =>
    simp only [readCorners] at h
    split at h
    · exact absurd h (by simp)
    · rename_i w rr heq
      have hcn : c ∉ cs := (List.nodup_cons.mp hnd).1
      cases i with
      | zero =>
        have hw : w = NO_UV_MARKER := by
          rw [recordAt_zero, heq] at hrec
          simpa using hrec
        rw [if_neg (by simp [hw])] at h
        simpa using readCorners_untouched hcn h
      | succ i =>
        have hrec2 : recordAt rr i = some NO_UV_MARKER := by
          rw [← recordAt_succ heq i]
          exact hrec
        have hi2 : i < cs.length := by simpa using hi
        have hget : (c :: cs).get ⟨i + 1, hi⟩ = cs.get ⟨i, hi2⟩ := rfl
        rw [hget]
        split at h
        · rw [ih (List.nodup_cons.mp hnd).2 h i hi2 hrec2]
          have hne : c ≠ cs.get ⟨i, hi2⟩ := fun hh => hcn (hh ▸ cs.get_mem i hi2)
          exact List.get?_set_ne _ _ hne
        · exact ih (List.nodup_cons.mp hnd).2 h i hi2 hrec2

theorem processVertex_flag1_sentinel {reader r1 r2 : BinaryReader}
    {uvs : List (ℚ × ℚ)} {corners : List Nat} {v : Nat}
    (hr : reader.read_uint8 = some (1, r1))
    (h32 : r1.read_uint32 = some (NO_UV_MARKER, r2)) :
    processVertex reader uvs corners v = .ok (r2, uvs) := by
  simp [processVertex, hr, h32]

/-- Claim C9. A corner whose stored 32-bit UV record equals the sentinel
`0xFFFFFFFF` keeps its (zero-initialized) UV: a flag-1 vertex record with
sentinel payload leaves the whole UV array unchanged, a sentinel record in
the multi-UV loop leaves that corner's entry unchanged, and on a
single-triangle mesh whose three vertex records are `flag=1` with payload
`0xFFFFFFFF`, all three corner UVs come out `(0, 0)`. -/
theorem uv_sentinel_yields_zero :
    (∀ (reader r1 r2 : BinaryReader) (uvs : List (ℚ × ℚ)) (corners : List Nat) (v : Nat),
      reader.read_uint8 = some (1, r1) → r1.read_uint32 = some (NO_UV_MARKER, r2) →
      processVertex reader uvs corners v = .ok (r2, uvs)) ∧
    (∀ (cs : List Nat) (reader : BinaryReader) (uvs : List (ℚ × ℚ))
        (r2 : BinaryReader) (uvs2 : List (ℚ × ℚ)),
      cs.Nodup → readCorners reader uvs cs = some (r2, uvs2) →
      ∀ i (hi : i < cs.length), recordAt reader i = some NO_UV_MARKER →
        uvs2.get? (cs.get ⟨i, hi⟩) = uvs.get? (cs.get ⟨i, hi⟩)) ∧
    parse_texture_coords
        [1, 255, 255, 255, 255, 1, 255, 255, 255, 255, 1, 255, 255, 255, 255]
        3 [(0, 1, 2)] = .ok [(0, 0), (0, 0), (0, 0)] := by
  refine ⟨?_, ?_, rfl⟩
  · intro reader r1 r2 uvs corners v hr h32
    exact processVertex_flag1_sentinel hr h32
  · intro cs reader uvs r2 uvs2 hnd h i hi hrec
    exact readCorners_sentinel hnd h i hi hrec

/-- Witness for C9: the flag-1 sentinel invariance applied at a concrete
reader carrying the bytes `[1, 255, 255, 255, 255]`. -/
theorem uv_sentinel_yields_zero_witness :
    processVertex ⟨[1, 255, 255, 255, 255], 0⟩ [(0, 0), (0, 0), (0, 0)] [0, 1, 2] 0 =
      .ok (⟨[1, 255, 255, 255, 255], 5⟩, [(0, 0), (0, 0), (0, 0)]) := by
  exact uv_sentinel_yields_zero.1 ⟨[1, 255, 255, 255, 255], 0⟩
    ⟨[1, 255, 255, 255, 255], 1⟩ ⟨[1, 255, 255, 255, 255], 5⟩
    [(0, 0), (0, 0), (0, 0)] [0, 1, 2] 0 rfl rfl

/-- Claim C2. With `check_value` set, the CE parse fails with the
integrity-check error exactly when the byte-reversed Adler-32 of the
decrypted vertex bytes differs from `check_value`; when they match, the
parse is the CC parse of the decrypted context. Quantified over the
Blowfish decryptor, key scrambler, CC decoder and key provider, which are
outside `src/`. -/
theorem ce_integrity_gate {ε ρ : Type}
    (blowfishDecrypt : List Nat → List Nat → Option Nat → List Nat)
    (scramble_key : List Nat → List Nat)
    (ccParse : ParseContext → Except ε ρ)
    (deriveBaseKey : List (String × String) → List Nat)
    (deriveKeyFrom : List Nat → List (String × String) → List Nat)
    (ctx : ParseContext) (cv : Nat) (hcv : ctx.check_value = some cv) :
    (ceParse blowfishDecrypt scramble_key ccParse deriveBaseKey deriveKeyFrom ctx =
        .error (.integrityCheckFailed cv (byteReverse32 (adler32 (decryptData blowfishDecrypt
          scramble_key ctx.vertex_data (deriveKeyFrom (deriveBaseKey ctx.properties)
            ctx.properties)) % 4294967296))) ↔
      byteReverse32 (adler32 (decryptData blowfishDecrypt scramble_key ctx.vertex_data
        (deriveKeyFrom (deriveBaseKey ctx.properties) ctx.properties)) % 4294967296) ≠ cv) ∧
    (byteReverse32 (adler32 (decryptData blowfishDecrypt scramble_key ctx.vertex_data
        (deriveKeyFrom (deriveBaseKey ctx.properties) ctx.properties)) % 4294967296) = cv →
      ceParse blowfishDecrypt scramble_key ccParse deriveBaseKey deriveKeyFrom ctx =
        match ccParse (decryptedContext blowfishDecrypt scramble_key ctx
            (deriveKeyFrom (deriveBaseKey ctx.properties) ctx.properties)
            (decryptData blowfishDecrypt scramble_key ctx.vertex_data
              (deriveKeyFrom (deriveBaseKey ctx.properties) ctx.properties))) with
        | .error e => .error (.ccError e)
        | .ok m => .ok m) := by
  simp only [ceParse, hcv]
  constructor
  · constructor
    · intro h
      by_cases hm : byteReverse32 (adler32 (decryptData blowfishDecrypt scramble_key
          ctx.vertex_data (deriveKeyFrom (deriveBaseKey ctx.properties) ctx.properties))
            % 4294967296) ≠ cv
      · exact hm
      · rw [if_neg hm] at h
        split at h
        · exact absurd h (by simp)
        · exact absurd h (by simp)
    · intro hm
      rw [if_pos hm]
  · intro hm
    rw [if_neg (by simp [hm])]

/-- Witness for C2: an empty plaintext vertex blob has Adler-32 `1`, whose
byte-reversed form `0x01000000` differs from the supplied check value `1`,
so the parse fails with the integrity error. -/
theorem ce_integrity_gate_witness :
    ceParse (ε := Unit) (ρ := Unit) (fun _ d _ => d) (fun k => k) (fun _ => .ok ())
      (fun _ => []) (fun b _ => b)
      { properties := [], vertex_data := .plain [], face_data := [],
        texture_coords_data := none, vertex_colors_data := none,
        texture_images := [], vertex_count := 0, face_count := 0,
        default_vertex_color := none, default_face_color := none,
        check_value := some 1 } =
      .error (.integrityCheckFailed 1 16777216) := by
  have h := (ce_integrity_gate (ε := Unit) (ρ := Unit) (fun _ d _ => d) (fun k => k)
    (fun _ => .ok ()) (fun _ => []) (fun b _ => b)
    { properties := [], vertex_data := .plain [], face_data := [],
      texture_coords_data := none, vertex_colors_data := none,
      texture_images := [], vertex_count := 0, face_count := 0,
      default_vertex_color := none, default_face_color := none,
      check_value := some 1 } 1 rfl).1.mpr (by decide)
  exact h.trans (by norm_num [decryptData, adler32, byteReverse32])

/-- Claim C7. After the schema parser returns, `load_hps` fails with a count
mismatch exactly when the reconstructed mesh's vertex or face count differs
from the envelope's declared counts; consequently every successful load
returns a mesh with `len(vertices) = vertex_count` and
`len(faces) = face_count`. -/
theorem load_count_checks {ε : Type} (num_vertices num_faces : Nat)
    (parserResult : Except ε ParseResult) :
    ((∃ kind expected actual, load_hps_finalize num_vertices num_faces parserResult =
        .error (.countMismatch kind expected actual)) ↔
      ∃ result, parserResult = .ok result ∧
        (result.mesh.num_vertices ≠ num_vertices ∨ result.mesh.num_faces ≠ num_faces)) ∧
    (∀ mesh, load_hps_finalize num_vertices num_faces parserResult = .ok mesh →
      mesh.vertices.length = num_vertices ∧ mesh.faces.length = num_faces) := by
  cases parserResult with
  | error e =>
    constructor
    · simp [load_hps_finalize]
    · intro mesh h
      exact absurd h (by simp [load_hps_finalize])
  | ok result =>
    constructor
    · constructor
      · rintro ⟨kind, expected, actual, h⟩
        simp only [load_hps_finalize] at h
        by_cases hv : result.mesh.num_vertices ≠ num_vertices
        · exact ⟨result, rfl, Or.inl hv⟩
        · rw [if_neg hv] at h
          by_cases hf : result.mesh.num_faces ≠ num_faces
          · exact ⟨result, rfl, Or.inr hf⟩
          · rw [if_neg hf] at h
            exact absurd h (by simp)
      · rintro ⟨result2, hr, hor⟩
        simp only [Except.ok.injEq] at hr
        subst hr
        simp only [load_hps_finalize]
        by_cases hv : result.mesh.num_vertices ≠ num_vertices
        · exact ⟨"Vertex", num_vertices, result.mesh.num_vertices, by rw [if_pos hv]⟩
        · rw [if_neg hv]
          rcases hor with hor | hor

          · exact absurd hor hv
          · exact ⟨"Face", num_faces, result.mesh.num_faces, by rw [if_pos hor]⟩
    · intro mesh h
      simp only [load_hps_finalize] at h
      by_cases hv : result.mesh.num_vertices ≠ num_vertices
      · rw [if_pos hv] at h
        exact absurd h (by simp)
      · rw [if_neg hv] at h
        by_cases hf : result.mesh.num_faces ≠ num_faces
        · rw [if_pos hf] at h
          exact absurd h (by simp)
        · rw [if_neg hf] at h
          simp only [Except.ok.injEq] at h
          push_neg at hv hf
          rw [← h]
          exact ⟨hv, hf⟩

/-- Witness for C7: a parser result whose mesh decodes to 3 vertices under
an envelope declaring 5 yields a count-mismatch error, and a matching
envelope loads successfully with the declared counts. -/
theorem load_count_checks_witness :
    (∃ kind expected actual,
      load_hps_finalize (ε := Unit) 5 0
          (.ok ⟨⟨[(0, 0, 0), (1, 0, 0), (0, 1, 0)], []⟩⟩) =
        .error (.countMismatch kind expected actual)) ∧
    ∀ mesh, load_hps_finalize (ε := Unit) 3 0
        (.ok ⟨⟨[(0, 0, 0), (1, 0, 0), (0, 1, 0)], []⟩⟩) = .ok mesh →
      mesh.vertices.length = 3 ∧ mesh.faces.length = 0 := by
  constructor
  · exact (load_count_checks (ε := Unit) 5 0
      (.ok ⟨⟨[(0, 0, 0), (1, 0, 0), (0, 1, 0)], []⟩⟩)).1.mpr
      ⟨⟨⟨[(0, 0, 0), (1, 0, 0), (0, 1, 0)], []⟩⟩, rfl, Or.inl (by decide)⟩
  · exact (load_count_checks (ε := Unit) 3 0
      (.ok ⟨⟨[(0, 0, 0), (1, 0, 0), (0, 1, 0)], []⟩⟩)).2

/-- Claim C6, code bug. `parse_spline` calls the `Spline` constructor with a
`color` keyword, but the `Spline` dataclass declares no `color` field, so
under Python dataclass semantics every call — and hence every well-formed
spline element — raises `TypeError` instead of returning a populated
`Spline`. -/
theorem parse_spline_color_kwarg_bug :
    dataclassUnexpectedKwargs splineDataclassFields parseSplineKwargs = ["color"] ∧
    "color" ∈ parseSplineKwargs ∧ "color" ∉ splineDataclassFields := by
  refine ⟨by decide, by decide, by decide⟩

theorem toBytesLE_length (n k : Nat) : (toBytesLE n k).length = k := by
  simp [toBytesLE]

theorem md5Digest_length (msg : List Nat) : (md5Digest msg).length = 16 := by
  simp [md5Digest, toBytesLE_length]

theorem md5HexUpper_data_length (msg : List Nat) :
    (md5HexUpper msg).data.length = 32 := by
  have hflat : ∀ (l : List Nat),
      (l.flatMap (fun b => [hexUpperChar (b / 16), hexUpperChar (b % 16)])).length
        = 2 * l.length := by
    intro l
    induction l with
    | nil => rfl
    | cons b l ih => simp [List.flatMap_cons, ih]; omega
  simp only [md5HexUpper]
  rw [hflat, md5Digest_length]

theorem md5HexUpper_ne_empty (msg : List Nat) : md5HexUpper msg ≠ "" := by
  intro h
  have h2 : (md5HexUpper msg).data.length = ("" : String).data.length := by rw [h]
  rw [md5HexUpper_data_length] at h2
  exact absurd h2 (by decide)

theorem computePackageLockHash_some_ne {props : List (String × String)} {h : String}
    (hh : computePackageLockHash props = some h) : h ≠ "" := by
  simp only [computePackageLockHash] at hh
  split at hh
  · exact absurd hh (by simp)
  · split at hh
    · exact absurd hh (by simp)
    · split at hh
      · exact absurd hh (by simp)
      · simp only [Option.some.injEq] at hh
        rw [← hh]
        exact md5HexUpper_ne_empty _

/-- Claim C1, amended. The derived key is: the package-hash bytes
(ISO-8859-1) when `EKID` is falsy — absent **or equal to the empty
string** — and a hash exists; `base_key ++ hash` when `EKID = "1"` and a
hash exists; and the base key as provided in every other case, in
particular whenever `EKID` is present, non-empty and different from
`"1"`. -/
theorem key_derivation_cases (base_key : List Nat) (props : List (String × String)) :
    ((props.lookup HPS_ATTR_ENCRYPTION_KEY_ID = none ∨
        props.lookup HPS_ATTR_ENCRYPTION_KEY_ID = some "") →
      (∀ h, computePackageLockHash props = some h →
        deriveKey base_key props = strLatin1 h) ∧
      (computePackageLockHash props = none →
        deriveKey base_key props = base_key)) ∧
    (∀ s, props.lookup HPS_ATTR_ENCRYPTION_KEY_ID = some s → s ≠ "" →
      (∀ h, s = ENCRYPTION_KEY_ID_3SHAPE_INTERNAL →
        computePackageLockHash props = some h →
        deriveKey base_key props = base_key ++ strLatin1 h) ∧
      (s = ENCRYPTION_KEY_ID_3SHAPE_INTERNAL →
        computePackageLockHash props = none →
        deriveKey base_key props = base_key) ∧
      (s ≠ ENCRYPTION_KEY_ID_3SHAPE_INTERNAL →
        deriveKey base_key props = base_key)) := by
  constructor
  · intro hekid
    constructor
    · intro h hh
      simp only [deriveKey, if_pos hekid, hh]
      rw [if_pos (computePackageLockHash_some_ne hh)]
    · intro hh
      simp only [deriveKey, if_pos hekid, hh]
  · intro s hs hne
    have hcond : ¬(props.lookup HPS_ATTR_ENCRYPTION_KEY_ID = none ∨
        props.lookup HPS_ATTR_ENCRYPTION_KEY_ID = some "") := by
      rw [hs]
      push_neg
      exact ⟨by simp, by simp [hne]⟩
    refine ⟨?_, ?_, ?_⟩
    · intro h h1 hh
      simp only [deriveKey, if_neg hcond, hh]
      rw [if_pos ⟨by rw [hs, h1], computePackageLockHash_some_ne hh⟩]
    · intro _ hh
      simp only [deriveKey, if_neg hcond, hh]
    · intro h1
      simp only [deriveKey, if_neg hcond]
      split
      · rename_i h hh
        rw [if_neg (by rintro ⟨hc, -⟩; rw [hs] at hc; simp only [Option.some.injEq] at hc; exact h1 hc)]
      · rfl

/-- Witness for C1 at concrete inputs: with `EKID = "2"` the base key comes
back unchanged, and with `EKID` absent and no lock list the base key also
comes back. -/
theorem key_derivation_cases_witness :
    deriveKey [1, 2] [("EKID", "2")] = [1, 2] ∧
    deriveKey [3] [] = [3] := by
  constructor
  · exact ((key_derivation_cases [1, 2] [("EKID", "2")]).2 "2" rfl
      (by decide)).2.2 (by decide)
  · exact ((key_derivation_cases [3] []).1 (Or.inl rfl)).2 rfl

/-- Counterexample to C1 as stated: the claim says a present-but-empty
`EKID` returns the base key even when a package hash exists, but with
`EKID = ""` and `PackageLockList = "a"` the code returns the 32 hash bytes
rather than the empty base key. -/
theorem key_derivation_counterexample :
    deriveKey [] [("EKID", ""), ("PackageLockList", "a")] ≠ [] := by
  have hh : computePackageLockHash [("EKID", ""), ("PackageLockList", "a")] =
      some (md5HexUpper (strUtf8 "a;")) := by rfl
  have hd : deriveKey [] [("EKID", ""), ("PackageLockList", "a")] =
      strLatin1 (md5HexUpper (strUtf8 "a;")) := by
    have hcond : List.lookup HPS_ATTR_ENCRYPTION_KEY_ID
        [("EKID", ""), ("PackageLockList", "a")] = none ∨
        List.lookup HPS_ATTR_ENCRYPTION_KEY_ID
          [("EKID", ""), ("PackageLockList", "a")] = some "" := Or.inr rfl
    simp only [deriveKey, hh]
    rw [if_pos hcond, if_pos (md5HexUpper_ne_empty _)]
  rw [hd]
  intro hcon
  have hlen := congrArg List.length hcon
  simp only [strLatin1, List.length_map, List.length_nil] at hlen
  rw [md5HexUpper_data_length] at hlen
  exact absurd hlen (by decide)

/-- Claim C3, amended. With `PackageLockList` present, a package hash is
produced exactly when splitting the value on `;` and dropping empty items
leaves at least one item — in particular a value consisting only of `;`
separators produces **no** hash — and the produced hash is the
uppercase-hex MD5 of the UTF-8 bytes of the deduplicated, sorted,
`;`-joined items with a trailing `;`. -/
theorem package_lock_hash_spec (props : List (String × String)) (value : String)
    (hv : props.lookup HPS_ATTR_PACKAGE_LOCK_LIST = some value) :
    ((computePackageLockHash props).isSome = true ↔
      ((pySplitSemi value).filter (fun s => s ≠ "")) ≠ []) ∧
    (∀ h, computePackageLockHash props = some h →
      h = md5HexUpper (strUtf8 (String.intercalate ";"
        (List.insertionSort pyStrLe
          ((pySplitSemi value).filter (fun s => s ≠ "")).dedup) ++ ";"))) := by
  by_cases hval : value = ""
  · subst hval
    constructor
    · simp only [computePackageLockHash, hv, if_pos rfl]
      exact iff_of_false (by simp) (by decide)
    · intro h hh
      simp only [computePackageLockHash, hv, if_pos rfl] at hh
      exact absurd hh (by simp)
  · by_cases hitems : ((pySplitSemi value).filter (fun s => s ≠ "")) = []
    · constructor
      · simp only [computePackageLockHash, hv, if_neg hval, if_pos hitems]
        exact iff_of_false (by simp) (not_not_intro hitems)
      · intro h hh
        simp only [computePackageLockHash, hv, if_neg hval, if_pos hitems] at hh
        exact absurd hh (by simp)
    · constructor
      · simp only [computePackageLockHash, hv, if_neg hval, if_neg hitems]
        exact iff_of_true rfl hitems
      · intro h hh
        simp only [computePackageLockHash, hv, if_neg hval, if_neg hitems,
          Option.some.injEq] at hh
        exact hh.symm

/-- Witness for C3: the value `"b;a"` yields a hash (its item list is
nonempty). -/
theorem package_lock_hash_spec_witness :
    (computePackageLockHash [("PackageLockList", "b;a")]).isSome = true :=
  (package_lock_hash_spec [("PackageLockList", "b;a")] "b;a" rfl).1.mpr (by decide)

/-- Counterexample to C3 as stated: the claim says every non-empty
`PackageLockList` value — including one made only of `;` separators —
produces a hash, but the value `";;;"` produces none. -/
theorem package_lock_hash_counterexample :
    computePackageLockHash [("PackageLockList", ";;;")] = none := rfl

theorem accumVertex_fst (st : (Nat → ℚ × ℚ × ℚ) × (Nat → Nat)) (v : Nat)
    (c : ℚ × ℚ × ℚ) (w : Nat) :
    (accumVertex st v c).1 w = st.1 w + (if v = w then c else 0) := by
  by_cases h : w = v <;>
    simp [accumVertex, Function.update_apply, h, eq_comm (a := v) (b := w)]

theorem accumVertex_snd (st : (Nat → ℚ × ℚ × ℚ) × (Nat → Nat)) (v : Nat)
    (c : ℚ × ℚ × ℚ) (w : Nat) :
    (accumVertex st v c).2 w = st.2 w + (if v = w then 1 else 0) := by
  by_cases h : w = v <;>
    simp [accumVertex, Function.update_apply, h, eq_comm (a := v) (b := w)]

theorem scale_count_scalar (x y z v : Nat) (q : ℚ) :
    ((countIn (x, y, z) v : Nat) : ℚ) * q =
      (if x = v then q else 0) + (if y = v then q else 0) + (if z = v then q else 0) := by
  simp only [countIn]
  by_cases h1 : x = v <;> by_cases h2 : y = v <;> by_cases h3 : z = v <;>
    simp [h1, h2, h3] <;> ring

theorem scaleColor_countIn (f : Nat × Nat × Nat) (v : Nat) (c : ℚ × ℚ × ℚ) :
    scaleColor (countIn f v) c =
      (if f.1 = v then c else 0) + (if f.2.1 = v then c else 0) +
        (if f.2.2 = v then c else 0) := by
  obtain ⟨x, y, z⟩ := f
  obtain ⟨c1, c2, c3⟩ := c
  have hsplit : ∀ (P : Prop) (inst : Decidable P) (a b d : ℚ),
      (if P then ((a, b, d) : ℚ × ℚ × ℚ) else 0)
        = (if P then a else 0, if P then b else 0, if P then d else 0) := by
    intro P inst a b d
    split <;> rfl
  simp only [hsplit, Prod.mk_add_mk, scaleColor, Prod.mk.injEq]
  exact ⟨scale_count_scalar x y z v c1, scale_count_scalar x y z v c2,
    scale_count_scalar x y z v c3⟩

theorem accumFace_fst (st : (Nat → ℚ × ℚ × ℚ) × (Nat → Nat))
    (f : Nat × Nat × Nat) (color : Nat × Nat × Nat) (w : Nat) :
    (accumFace st f color).1 w = st.1 w + scaleColor (countIn f w) (colorToQ color) := by
  simp only [accumFace, accumVertex_fst, scaleColor_countIn]
  ring

theorem accumFace_snd (st : (Nat → ℚ × ℚ × ℚ) × (Nat → Nat))
    (f : Nat × Nat × Nat) (color : Nat × Nat × Nat) (w : Nat) :
    (accumFace st f color).2 w = st.2 w + countIn f w := by
  simp only [accumFace, accumVertex_snd, countIn]
  omega

theorem foldl_accumFace_spec (L : List ((Nat × Nat × Nat) × (Nat × Nat × Nat)))
    (st : (Nat → ℚ × ℚ × ℚ) × (Nat → Nat)) (w : Nat) :
    ((L.foldl (fun st fc => accumFace st fc.1 fc.2) st).1 w
        = st.1 w + cornerColorSum L w) ∧
    ((L.foldl (fun st fc => accumFace st fc.1 fc.2) st).2 w
        = st.2 w + cornerCountSum L w) := by
  induction L generalizing st with
  | nil => simp [cornerColorSum, cornerCountSum]
  | cons fc L ih =>
    simp only [List.foldl_cons]
    obtain ⟨ih1, ih2⟩ := ih (accumFace st fc.1 fc.2)
    rw [ih1, ih2, accumFace_fst, accumFace_snd]
    simp only [cornerColorSum, cornerCountSum, List.map_cons, List.sum_cons]
    constructor
    · ring
    · omega

theorem cornerColorSum_of_count_zero
    {L : List ((Nat × Nat × Nat) × (Nat × Nat × Nat))} {v : Nat}
    (h : cornerCountSum L v = 0) : cornerColorSum L v = 0 := by
  induction L with
  | nil => simp [cornerColorSum]
  | cons fc L ih =>
    simp only [cornerCountSum, List.map_cons, List.sum_cons] at h
    have h1 : countIn fc.1 v = 0 := by omega
    have h2 : cornerCountSum L v = 0 := by simpa [cornerCountSum] using by omega
    simp only [cornerColorSum, List.map_cons, List.sum_cons]
    rw [h1]
    have : scaleColor ((0 : Nat) : ℚ) (colorToQ fc.2) = 0 := by
      simp [scaleColor, Prod.ext_iff]
    rw [this, zero_add]
    exact ih h2

/-- Claim C10. `face_colors_to_vertex_colors` returns one row per vertex;
a vertex referenced by no face corner gets `(0, 0, 0)`, and a referenced
vertex gets the unweighted mean of the colors of its incident faces — each
face counted once per corner naming the vertex — truncated to uint8. -/
theorem face_color_averaging (mesh : ColoredMesh)
    (hlen : mesh.face_colors.length = mesh.faces.length)
    (_hvalid : ∀ f ∈ mesh.faces,
      f.1 < mesh.num_vertices ∧ f.2.1 < mesh.num_vertices ∧ f.2.2 < mesh.num_vertices) :
    (face_colors_to_vertex_colors mesh).length = mesh.num_vertices ∧
    ∀ v, v < mesh.num_vertices →
      ((faceCornersOf mesh.faces).count v = 0 →
        (face_colors_to_vertex_colors mesh).get? v = some (0, 0, 0)) ∧
      (0 < (faceCornersOf mesh.faces).count v →
        (face_colors_to_vertex_colors mesh).get? v =
          some (truncColor (divColor
            (cornerColorSum (mesh.faces.zip mesh.face_colors) v)
            ((faceCornersOf mesh.faces).count v)))) := by
  have hcount : ∀ v, (faceCornersOf mesh.faces).count v
      = cornerCountSum (mesh.faces.zip mesh.face_colors) v := by
    intro v
    have hmap : (mesh.faces.zip mesh.face_colors).map (fun fc => countIn fc.1 v)
        = mesh.faces.map (fun f => countIn f v) := by
      have := List.map_fst_zip mesh.faces mesh.face_colors (le_of_eq hlen.symm)
      calc (mesh.faces.zip mesh.face_colors).map (fun fc => countIn fc.1 v)
          = ((mesh.faces.zip mesh.face_colors).map Prod.fst).map (fun f => countIn f v) := by
            rw [List.map_map]
            rfl
        _ = mesh.faces.map (fun f => countIn f v) := by rw [this]
    rw [cornerCountSum, hmap]
    clear hmap
    induction mesh.faces with
    | nil => simp [faceCornersOf]
    | cons f fs ih =>
      obtain ⟨x, y, z⟩ := f
      simp only [faceCornersOf, List.flatMap_cons, List.count_append, List.map_cons,
        List.sum_cons] at ih ⊢
      rw [ih]
      simp [List.count_cons, countIn]
      omega
  constructor
  · simp [face_colors_to_vertex_colors]
  · intro v hv
    have hget : (face_colors_to_vertex_colors mesh).get? v =
        some (truncColor
          (if ((mesh.faces.zip mesh.face_colors).foldl
                (fun st fc => accumFace st fc.1 fc.2) (fun _ => (0, 0, 0), fun _ => 0)).2 v > 0
            then divColor (((mesh.faces.zip mesh.face_colors).foldl
                (fun st fc => accumFace st fc.1 fc.2) (fun _ => (0, 0, 0), fun _ => 0)).1 v)
              (((mesh.faces.zip mesh.face_colors).foldl
                (fun st fc => accumFace st fc.1 fc.2) (fun _ => (0, 0, 0), fun _ => 0)).2 v)
            else ((mesh.faces.zip mesh.face_colors).foldl
                (fun st fc => accumFace st fc.1 fc.2) (fun _ => (0, 0, 0), fun _ => 0)).1 v)) := by
      simp only [face_colors_to_vertex_colors, List.get?_map, List.get?_range hv]
      rfl
    obtain ⟨h1, h2⟩ := foldl_accumFace_spec (mesh.faces.zip mesh.face_colors)
      (fun _ => (0, 0, 0), fun _ => 0) v
    simp only at h1 h2
    have hz3 : ((0, 0, 0) : ℚ × ℚ × ℚ) = 0 := rfl
    rw [h1, h2] at hget
    simp only [hz3, zero_add] at hget
    constructor
    · intro hz
      rw [hcount v] at hz
      rw [hget, if_neg (by omega)]
      rw [cornerColorSum_of_count_zero hz]
      decide
    · intro hp
      rw [hcount v] at hp
      rw [hget, if_pos (by omega), hcount v]

/-- Witness for C10 at the two-triangle mesh of the repository's averaging
test: vertex 1 touches both faces and gets the truncated mean
`(150, 0, 0)`, and the output has one row per vertex. -/
theorem face_color_averaging_witness :
    (face_colors_to_vertex_colors
        ⟨4, [(0, 1, 2), (1, 3, 2)], [(100, 0, 0), (200, 0, 0)]⟩).length = 4 ∧
    (face_colors_to_vertex_colors
        ⟨4, [(0, 1, 2), (1, 3, 2)], [(100, 0, 0), (200, 0, 0)]⟩).get? 1 =
      some (150, 0, 0) := by
  have h := face_color_averaging
    ⟨4, [(0, 1, 2), (1, 3, 2)], [(100, 0, 0), (200, 0, 0)]⟩ (by decide) (by decide)
  refine ⟨h.1, ?_⟩
  have h2 := (h.2 1 (by decide)).2 (by decide)
  rw [h2]
  have e1 : cornerColorSum
      ([((0, 1, 2), (100, 0, 0)), ((1, 3, 2), (200, 0, 0))] :
        List ((Nat × Nat × Nat) × (Nat × Nat × Nat))) 1 = (300, 0, 0) := by
    norm_num [cornerColorSum, scaleColor, colorToQ, countIn, Prod.ext_iff]
  have ezip : ([(0, 1, 2), (1, 3, 2)] : List (Nat × Nat × Nat)).zip
      ([(100, 0, 0), (200, 0, 0)] : List (Nat × Nat × Nat))
        = [((0, 1, 2), (100, 0, 0)), ((1, 3, 2), (200, 0, 0))] := rfl
  have ecnt : List.count 1 (faceCornersOf [(0, 1, 2), (1, 3, 2)]) = 2 := by decide
  show some (truncColor (divColor (cornerColorSum
      (([(0, 1, 2), (1, 3, 2)] : List (Nat × Nat × Nat)).zip
        ([(100, 0, 0), (200, 0, 0)] : List (Nat × Nat × Nat))) 1)
      (List.count 1 (faceCornersOf [(0, 1, 2), (1, 3, 2)])))) = some (150, 0, 0)
  rw [ezip, e1, ecnt]
  have e3 : divColor ((300 : ℚ), (0 : ℚ), (0 : ℚ)) 2 = (150, 0, 0) := by
    norm_num [divColor, Prod.ext_iff]
  rw [e3]
  norm_num [truncColor, Prod.ext_iff]

end HPS
